import Mathlib

/-!
Shallow embedding of the CSV table formatter (src/src/App.jsx).

Raw cell values are either strings (as delivered by the CSV parser) or
numbers (the derived "Median Weekly Rent" column).  JS numbers are modelled
as rationals; JS string/number built-ins (parseFloat, toFixed,
toLocaleString, Math.round) are modelled after their ECMAScript semantics
restricted to finite decimal values (no Infinity, no binary-float rounding).
-/

/-- A JS value stored in a row object: a string cell or a number cell. -/
inductive Value where
  | str (s : String)
  | num (q : ℚ)
deriving DecidableEq

/-- A JS object with string keys, modelled as an insertion-ordered
association list with unique keys (the invariant JS objects maintain). -/
abbrev Obj := List (String × Value)

/-- Property read `o[k]`: first binding of `k`, or `undefined` (none). -/
def objGet {α : Type} : List (String × α) → String → Option α
  | [], _ => none
  | (k, v) :: t, key => if k = key then some v else objGet t key

/-- Property write `o[k] = v`: JS overwrites an existing key in place
(keeping its original insertion position) and appends a fresh key. -/
def objSet {α : Type} (o : List (String × α)) (k : String) (v : α) :
    List (String × α) :=
  if o.any (fun p => p.1 = k) then
    o.map (fun p => if p.1 = k then (k, v) else p)
  else o ++ [(k, v)]

/-- JS falsiness of a cell value: the empty string and the number 0
(the only falsy values that occur in this pipeline). -/
def isFalsy : Value → Bool
  | .str s => s = ""
  | .num q => q = 0

/-- The decimal digit character for `d < 10`. -/
def digitChar (d : ℕ) : Char := Char.ofNat (48 + d)

/-- Little-endian decimal digits of `n`, fuelled for structural recursion;
correct whenever `n ≤ fuel`. -/
def natDigitsRevAux : ℕ → ℕ → List ℕ
  | 0, n => [n % 10]
  | fuel + 1, n => if n < 10 then [n] else n % 10 :: natDigitsRevAux fuel (n / 10)

/-- Little-endian decimal digits of `n`. -/
def natDigitsRev (n : ℕ) : List ℕ := natDigitsRevAux n n

/-- Most-significant-first decimal digit characters of `n`. -/
def natToChars (n : ℕ) : List Char := ((natDigitsRev n).map digitChar).reverse

/-- Decimal string of a natural number. -/
def natToString (n : ℕ) : String := String.mk (natToChars n)

/-- Decimal digit characters of an integer, sign first. -/
def intToChars (v : ℤ) : List Char :=
  (if v < 0 then ['-'] else []) ++ natToChars v.natAbs

/-- Decimal string of an integer (JS default integer rendering). -/
def intToString (v : ℤ) : String := String.mk (intToChars v)

/-- Thousands grouping on a little-endian digit-character list: after every
three digits insert a comma when more digits follow (en-US grouping). -/
def group3Rev : List Char → List Char
  | a :: b :: c :: d :: rest => a :: b :: c :: ',' :: group3Rev (d :: rest)
  | l => l

/-- `k` fraction digits of `m` (little-endian range), trailing zeros
trimmed, most significant first. -/
def fracChars (m k : ℕ) : List Char :=
  (((List.range k).map (fun i => digitChar (m / 10 ^ i % 10))).dropWhile
    (fun c => decide (c = '0'))).reverse

/-- Model of `Number.prototype.toLocaleString()` in the en-US locale:
round to at most 3 fraction digits (half away from zero, the Intl default),
group the integer part in thousands, trim trailing fraction zeros. -/
def toLocaleStringChars (q : ℚ) : List Char :=
  let n : ℤ := if q < 0 then -⌊-q * 1000 + 1 / 2⌋ else ⌊q * 1000 + 1 / 2⌋
  let m : ℕ := n.natAbs
  let frac : ℕ := m % 1000
  (if n < 0 then ['-'] else []) ++
    (group3Rev ((natDigitsRev (m / 1000)).map digitChar)).reverse ++
    (if frac = 0 then [] else '.' :: fracChars frac 3)

/-- String form of the `toLocaleString` model. -/
def toLocaleString (q : ℚ) : String := String.mk (toLocaleStringChars q)

/-- Model of `Number.prototype.toFixed(2)`: per ECMAScript, the sign is
split off and the magnitude is rounded half away from zero to 2 decimals. -/
def toFixed2Chars (q : ℚ) : List Char :=
  let n : ℕ := (⌊|q| * 100 + 1 / 2⌋).toNat
  (if q < 0 then ['-'] else []) ++ natToChars (n / 100) ++
    ('.' :: [digitChar (n / 10 % 10), digitChar (n % 10)])

/-- String form of the `toFixed(2)` model. -/
def toFixed2 (q : ℚ) : String := String.mk (toFixed2Chars q)

/-- Least `k` (up to the given fuel) with `x * 10 ^ k` integral. -/
def decExpAux : ℚ → ℕ → ℕ
  | _, 0 => 0
  | x, fuel + 1 => if x.den = 1 then 0 else decExpAux (x * 10) fuel + 1

/-- Model of JS number-to-string conversion, restricted to rationals with a
finite decimal expansion of at most 17 digits (all numbers this pipeline
produces are such). -/
def qToString (q : ℚ) : String :=
  let k := decExpAux |q| 17
  let n : ℕ := (⌊|q| * 10 ^ k + 1 / 2⌋).toNat
  String.mk ((if q < 0 then ['-'] else []) ++ natToChars (n / 10 ^ k) ++
    (if n % 10 ^ k = 0 then [] else '.' :: fracChars (n % 10 ^ k) k))

/-- JS `value.toString()` on a cell value. -/
def jsToString : Value → String
  | .str s => s
  | .num q => qToString q

/-- Whitespace skipped by `parseFloat`. -/
def isJsSpace (c : Char) : Bool :=
  c = ' ' ∨ c = '\t' ∨ c = '\n' ∨ c = '\r' ∨ c = '\x0b' ∨ c = '\x0c'

/-- Split a leading run of decimal digit characters. -/
def takeDigits : List Char → List Char × List Char
  | [] => ([], [])
  | c :: cs =>
    if c.isDigit then
      let p := takeDigits cs
      (c :: p.1, p.2)
    else ([], c :: cs)

/-- Value of a most-significant-first digit-character list. -/
def digitsVal (cs : List Char) : ℕ :=
  cs.foldl (fun a c => 10 * a + (c.toNat - 48)) 0

/-- Optional sign at the head of a `parseFloat` input. -/
def parseSign (cs : List Char) : ℚ × List Char :=
  match cs with
  | c :: rest =>
    if c = '+' then (1, rest) else if c = '-' then (-1, rest) else (1, cs)
  | [] => (1, [])

/-- Optional exponent part of a decimal literal (`e`/`E`, sign, digits);
an incomplete exponent contributes 0, as `parseFloat` backtracks over it. -/
def parseExp (cs : List Char) : ℤ :=
  match cs with
  | c :: rest =>
    if c = 'e' ∨ c = 'E' then
      let sr : ℤ × List Char :=
        match rest with
        | c2 :: r2 =>
          if c2 = '+' then (1, r2) else if c2 = '-' then (-1, r2) else (1, rest)
        | [] => (1, [])
      let ds := (takeDigits sr.2).1
      if ds.isEmpty then 0 else sr.1 * (digitsVal ds : ℤ)
    else 0
  | [] => 0

/-- Model of JS `parseFloat` on a character list: skip whitespace, read an
optional sign, integer digits, an optional fraction and an optional
exponent; `none` models `NaN` (no digits found).  Restricted to finite
decimal literals (no `Infinity`, no binary-float rounding). -/
def jsParseFloatChars (cs0 : List Char) : Option ℚ :=
  let cs := cs0.dropWhile isJsSpace
  let sr := parseSign cs
  let ir := takeDigits sr.2
  let fr : List Char × List Char :=
    match ir.2 with
    | c :: r => if c = '.' then takeDigits r else ([], ir.2)
    | [] => ([], [])
  if ir.1.isEmpty && fr.1.isEmpty then none
  else
    some (sr.1 * ((digitsVal ir.1 : ℚ) + (digitsVal fr.1 : ℚ) / 10 ^ fr.1.length) *
      (10 : ℚ) ^ parseExp fr.2)

/-- Model of JS `parseFloat` on a string. -/
def jsParseFloat (s : String) : Option ℚ := jsParseFloatChars s.data

/-- `parseFloat(value)` on a cell value: a number is first converted to its
string form, a string is parsed directly. -/
def parseFloatValue : Value → Option ℚ
  | .str s => jsParseFloat s
  | .num q => jsParseFloat (qToString q)

/-- Model of `Math.round`: half-up (toward positive infinity) rounding. -/
def jsMathRound (x : ℚ) : ℤ := ⌊x + 1 / 2⌋

/-! ## Static classification tables and the field classifier -/

/-- The fixed priority order of columns (source: `priorityColumns`). -/
def priorityColumns : List String :=
  ["Suburb", "State", "Owner Occupier", "Vacancy Rate", "Growth (12MTHS)",
   "5-Year Sale Price Growth", "10-Year Sale Price Growth", "DOM",
   "Median Weekly Rent", "Suburb $ Median", "Rental Yield"]

/-- Columns holding decimal fractions shown as percentages
(source: `percentageFields`). -/
def percentageFields : List String :=
  ["Growth (12MTHS)", "Growth (10Y Ave)", "Rental Yield", "Vacancy Rate",
   "Owner Occupier", "Social Housing", "Market Absorption", "IQR % Median",
   "Build. Approvals", "Pop. Growth (5Y)", "SA2 1-Year Population Growth",
   "SA2 3-Year Population Growth", "SA2 5-Year Population Growth",
   "SA2 10-Year Population Growth", "SA3 1-Year Population Growth",
   "SA3 3-Year Population Growth", "SA3 5-Year Population Growth",
   "SA3 10-Year Population Growth", "3-Year Median Sale Price CAGR",
   "5-Year Median Sale Price CAGR", "10-Year Median Sale Price CAGR",
   "3-Year Sale Price Growth", "5-Year Sale Price Growth",
   "10-Year Sale Price Growth", "12-Month Sale Price Growth"]

/-- Columns shown as dollar amounts (source: `currencyFields`). -/
def currencyFields : List String :=
  ["Suburb $ Median", "Median Income", "Median Weekly Rent"]

/-- Columns shown with thousands separators (source: `numberFields`). -/
def numberFields : List String :=
  ["Population", "Property Count", "Total Property Count",
   "SA2 Estimated Resident Population", "Sales Volume", "Build. Approvals"]

/-- The four semantic field kinds of the spec. -/
inductive FieldKind where
  | Percentage | Currency | Count | Plain
deriving DecidableEq

/-- Field classification by column name, in the branch order of
`formatValue`: percentage, then currency, then count, else plain. -/
def classify (name : String) : FieldKind :=
  if name ∈ percentageFields then .Percentage
  else if name ∈ currencyFields then .Currency
  else if name ∈ numberFields then .Count
  else .Plain

/-! ## The value formatter, un-formatter and derived-field calculator -/

/-- Source `formatValue`: falsy values display as the empty string,
unparseable values pass through unchanged, otherwise the parsed number is
rendered according to the field's classification. -/
def formatValue (value : Value) (fieldName : String) : Value :=
  if isFalsy value then .str ""
  else
    match parseFloatValue value with
    | none => value
    | some numValue =>
      if fieldName ∈ percentageFields then
        .str (toFixed2 (numValue * 100) ++ "%")
      else if fieldName ∈ currencyFields then
        if fieldName = "Median Weekly Rent" then
          .str ("$" ++ toLocaleString numValue)
        else
          .str ("$" ++ toLocaleString numValue)
      else if fieldName ∈ numberFields then
        .str (toLocaleString numValue)
      else value

/-- Removal of every '$' and ',' (source regex `/[$,]/g`). -/
def stripDollarComma (s : String) : String :=
  String.mk (s.data.filter (fun c => decide (¬(c = '$' ∨ c = ','))))

/-- Removal of every ',' (source regex `/,/g`). -/
def stripComma (s : String) : String :=
  String.mk (s.data.filter (fun c => decide (¬(c = ','))))

/-- Removal of the first '%' only: JS `replace` with a plain-string
pattern replaces a single occurrence. -/
def removeFirstPercent : List Char → List Char
  | [] => []
  | c :: cs => if c = '%' then cs else c :: removeFirstPercent cs

/-- String form of the single-'%' removal. -/
def stripPercent (s : String) : String := String.mk (removeFirstPercent s.data)

/-- Source `getRawValue`: recover the raw (typed) cell for spreadsheet
export from a display value, the displayed column name and the original
column name.  `fieldName` is accepted but unused, as in the source. -/
def getRawValue (value : Value) (fieldName originalColumn : String) : Value :=
  if isFalsy value then .str ""
  else if originalColumn = "Median Weekly Rent" then
    match jsParseFloat (stripDollarComma (jsToString value)) with
    | none => .num 0
    | some q => .num q
  else if originalColumn ∈ percentageFields then
    match jsParseFloat (stripPercent (jsToString value)) with
    | none => .num 0
    | some q => .num (q / 100)
  else if originalColumn ∈ currencyFields then
    match jsParseFloat (stripDollarComma (jsToString value)) with
    | none => .num 0
    | some q => .num q
  else if originalColumn ∈ numberFields then
    match jsParseFloat (stripComma (jsToString value)) with
    | none => .num 0
    | some q => .num q
  else
    match parseFloatValue value with
    | none => value
    | some q => .num q

/-- Source `calculateMedianWeeklyRent`: read the price and the yield with
`parseFloat(...) || 0`, and if both are strictly positive return the
rounded weekly rent, otherwise 0. -/
def calculateMedianWeeklyRent (row : Obj) : ℤ :=
  let propertyPrice : ℚ := ((objGet row "Suburb $ Median").bind parseFloatValue).getD 0
  let rentalYield : ℚ := ((objGet row "Rental Yield").bind parseFloatValue).getD 0
  if 0 < propertyPrice ∧ 0 < rentalYield then
    jsMathRound (propertyPrice * rentalYield / 52)
  else 0

/-! ## Header ordering -/

/-- UTF-16 code units of a character list (surrogate pairs for characters
beyond the basic multilingual plane), the units JS string comparison uses. -/
def utf16Units : List Char → List ℕ
  | [] => []
  | c :: cs =>
    (if c.toNat < 65536 then [c.toNat]
     else [55296 + (c.toNat - 65536) / 1024, 56320 + (c.toNat - 65536) % 1024]) ++
      utf16Units cs

/-- Lexicographic comparison of code-unit lists. -/
def unitsLe : List ℕ → List ℕ → Bool
  | [], _ => true
  | _ :: _, [] => false
  | a :: as, b :: bs => if a < b then true else if b < a then false else unitsLe as bs

/-- The JS default sort order on strings: lexicographic on UTF-16 units. -/
def jsLe (s t : String) : Bool := unitsLe (utf16Units s.data) (utf16Units t.data)

/-- Insertion into a `jsLe`-sorted list. -/
def insertSorted (a : String) : List String → List String
  | [] => [a]
  | b :: t => if jsLe b a then b :: insertSorted a t else a :: b :: t

/-- Model of `Array.prototype.sort()` with the default comparator: the
stable sort by `jsLe` (insertion sort computes exactly that). -/
def jsSortStrings : List String → List String
  | [] => []
  | a :: t => insertSorted a (jsSortStrings t)

/-- Source `sortHeaders`: priority columns first in `priorityColumns`
order, the remaining headers sorted by the default string order. -/
def sortHeaders (headers : List String) : List String :=
  let priority := headers.filter (fun h => decide (h ∈ priorityColumns))
  let others := headers.filter (fun h => decide (h ∉ priorityColumns))
  let sortedPriority := priorityColumns.filter (fun col => decide (col ∈ priority))
  sortedPriority ++ jsSortStrings others

/-! ## Projection and upload handling -/

/-- `renames[col] || col`: the renamed display name of a column, falling
back to the original name when the entry is missing or empty. -/
def renameOf (renames : List (String × String)) (col : String) : String :=
  match objGet renames col with
  | some r => if r = "" then col else r
  | none => col

/-- Source `generateTableData`: per raw row, build the display row by
inserting, for each selected column present in the row, the formatted
value under the renamed column name. -/
def generateTableData (data : List Obj) (columns : List String)
    (renames : List (String × String)) : List Obj :=
  data.map (fun row =>
    columns.foldl (fun filteredRow col =>
      match objGet row col with
      | some v => objSet filteredRow (renameOf renames col) (formatValue v col)
      | none => filteredRow) [])

/-- An uploaded file (only its name matters to the session state). -/
structure JsFile where
  name : String
deriving DecidableEq

/-- Outcome delivered by the external CSV parser's callbacks. -/
inductive ParseOutcome where
  | complete (data : List Obj)
  | error (message : String)
deriving DecidableEq

/-- The React session state of the component. -/
structure AppState where
  csvData : Option (List Obj)
  headers : List String
  selectedColumns : List String
  columnRenames : List (String × String)
  tableData : List Obj
  fileName : String
deriving DecidableEq

/-- The cleared state (`handleFileUpload(null)`). -/
def resetState : AppState :=
  { csvData := none, headers := [], selectedColumns := [], columnRenames := [],
    tableData := [], fileName := "" }

/-- Source `handleFileUpload` as a state transition.  The parse outcome of
the external collaborator is passed explicitly; the second component is
the sequence of messages sent to the external error sink
(`console.error`).  Note the source sets the file name before parsing. -/
def handleFileUpload (s : AppState) (file : Option JsFile)
    (outcome : ParseOutcome) : AppState × List String :=
  match file with
  | none => (resetState, [])
  | some f =>
    let s1 := { s with fileName := f.name }
    match outcome with
    | .error msg => (s1, ["Error parsing CSV: " ++ msg])
    | .complete data =>
      let dataWithCalculatedFields := data.map (fun row =>
        objSet row "Median Weekly Rent" (Value.num (calculateMedianWeeklyRent row)))
      let csvHeaders := (data.head?.getD []).map Prod.fst
      let allHeaders := csvHeaders ++ ["Median Weekly Rent"]
      let sortedHeaders := sortHeaders allHeaders
      let defaultSelectedColumns :=
        priorityColumns.filter (fun col => decide (col ∈ sortedHeaders))
      let initialRenames := sortedHeaders.foldl (fun m h => objSet m h h) []
      ({ s1 with
          csvData := some dataWithCalculatedFields,
          headers := sortedHeaders,
          selectedColumns := defaultSelectedColumns,
          columnRenames := initialRenames,
          tableData := generateTableData dataWithCalculatedFields
            defaultSelectedColumns initialRenames }, [])

/-! ## Digit and parsing lemmas -/

theorem digitChar_toNat (d : ℕ) (h : d < 10) : (digitChar d).toNat - 48 = d := by
  interval_cases d <;> decide

theorem digitChar_isDigit (d : ℕ) (h : d < 10) : (digitChar d).isDigit = true := by
  interval_cases d <;> decide

theorem digitChar_not_space (d : ℕ) (h : d < 10) : isJsSpace (digitChar d) = false := by
  interval_cases d <;> decide

theorem digitChar_ne_plus (d : ℕ) (h : d < 10) : digitChar d ≠ '+' := by
  interval_cases d <;> decide

theorem digitChar_ne_minus (d : ℕ) (h : d < 10) : digitChar d ≠ '-' := by
  interval_cases d <;> decide

theorem digitChar_ne_dollar (d : ℕ) (h : d < 10) : digitChar d ≠ '$' := by
  interval_cases d <;> decide

theorem digitChar_ne_comma (d : ℕ) (h : d < 10) : digitChar d ≠ ',' := by
  interval_cases d <;> decide

theorem natDigitsRevAux_lt (fuel n : ℕ) :
    ∀ d ∈ natDigitsRevAux fuel n, d < 10 := by
  induction fuel generalizing n with
  | zero => intro d hd; simp only [natDigitsRevAux, List.mem_singleton] at hd; omega
  | succ fuel ih =>
    intro d hd
    simp only [natDigitsRevAux] at hd
    split at hd
    · simp only [List.mem_singleton] at hd; omega
    · rcases List.mem_cons.mp hd with h | h
      · omega
      · exact ih _ d h

theorem natDigitsRevAux_ne_nil (fuel n : ℕ) : natDigitsRevAux fuel n ≠ [] := by
  cases fuel with
  | zero => simp [natDigitsRevAux]
  | succ fuel => simp only [natDigitsRevAux]; split <;> simp

theorem natDigitsRev_lt (n : ℕ) : ∀ d ∈ natDigitsRev n, d < 10 :=
  natDigitsRevAux_lt n n

theorem natDigitsRev_ne_nil (n : ℕ) : natDigitsRev n ≠ [] :=
  natDigitsRevAux_ne_nil n n

theorem foldl_digits_val (l : List ℕ) (hl : ∀ d ∈ l, d < 10) (a : ℕ) :
    l.foldl (fun a c => 10 * a + c) a =
      (l.map digitChar).foldl (fun a c => 10 * a + (c.toNat - 48)) a := by
  induction l generalizing a with
  | nil => rfl
  | cons d t ih =>
    simp only [List.map_cons, List.foldl_cons]
    rw [digitChar_toNat d (hl d (List.mem_cons_self d t))]
    exact ih (fun x hx => hl x (List.mem_cons_of_mem d hx)) _

theorem valMSD_natDigitsRevAux (fuel : ℕ) :
    ∀ n, n ≤ fuel →
      ((natDigitsRevAux fuel n).reverse).foldl (fun a d => 10 * a + d) 0 = n := by
  induction fuel with
  | zero =>
    intro n hn
    have hn0 : n = 0 := Nat.le_zero.mp hn
    subst hn0; rfl
  | succ fuel ih =>
    intro n hn
    by_cases h : n < 10
    · simp [natDigitsRevAux, h]
    · have h10 : 10 ≤ n := Nat.le_of_not_lt h
      have hdiv : n / 10 < n := Nat.div_lt_self (by omega) (by omega)
      simp only [natDigitsRevAux, if_neg h, List.reverse_cons, List.foldl_append,
        List.foldl_cons, List.foldl_nil]
      rw [ih (n / 10) (by omega)]
      omega

theorem digitsVal_natToChars (n : ℕ) : digitsVal (natToChars n) = n := by
  unfold digitsVal natToChars
  rw [← List.map_reverse, ← foldl_digits_val]
  · exact valMSD_natDigitsRevAux n n le_rfl
  · intro d hd
    exact natDigitsRev_lt n d (List.mem_reverse.mp hd)

theorem natToChars_mem (n : ℕ) :
    ∀ c ∈ natToChars n, ∃ d, d < 10 ∧ c = digitChar d := by
  intro c hc
  unfold natToChars at hc
  rcases List.mem_map.mp (List.mem_reverse.mp hc) with ⟨d, hd, rfl⟩
  exact ⟨d, natDigitsRev_lt n d hd, rfl⟩

theorem natToChars_ne_nil (n : ℕ) : natToChars n ≠ [] := by
  unfold natToChars
  simp [natDigitsRev_ne_nil n]

theorem takeDigits_all (cs : List Char) (h : ∀ c ∈ cs, c.isDigit = true) :
    takeDigits cs = (cs, []) := by
  induction cs with
  | nil => rfl
  | cons c t ih =>
    simp only [takeDigits, h c (List.mem_cons_self c t), if_pos]
    rw [ih (fun x hx => h x (List.mem_cons_of_mem c hx))]

theorem jsParseFloatChars_digits (cs : List Char) (hne : cs ≠ [])
    (hd : ∀ c ∈ cs, ∃ d, d < 10 ∧ c = digitChar d) :
    jsParseFloatChars cs = some ((digitsVal cs : ℚ)) := by
  obtain ⟨c, t, rfl⟩ := List.exists_cons_of_ne_nil hne
  obtain ⟨d, hdlt, rfl⟩ := hd _ (List.mem_cons_self _ t)
  have hdig : ∀ x ∈ digitChar d :: t, x.isDigit = true := by
    intro x hx
    obtain ⟨e, helt, rfl⟩ := hd x hx
    exact digitChar_isDigit e helt
  unfold jsParseFloatChars
  rw [List.dropWhile_cons, digitChar_not_space d hdlt]
  simp only [Bool.false_eq_true, if_false]
  rw [show parseSign (digitChar d :: t) = (1, digitChar d :: t) by
    simp [parseSign, digitChar_ne_plus d hdlt, digitChar_ne_minus d hdlt]]
  rw [takeDigits_all _ hdig]
  simp [parseExp, digitsVal]

theorem jsParseFloatChars_neg_digits (cs : List Char) (hne : cs ≠ [])
    (hd : ∀ c ∈ cs, ∃ d, d < 10 ∧ c = digitChar d) :
    jsParseFloatChars ('-' :: cs) = some (-(digitsVal cs : ℚ)) := by
  obtain ⟨c, t, rfl⟩ := List.exists_cons_of_ne_nil hne
  obtain ⟨d, hdlt, rfl⟩ := hd _ (List.mem_cons_self _ t)
  have hdig : ∀ x ∈ digitChar d :: t, x.isDigit = true := by
    intro x hx
    obtain ⟨e, helt, rfl⟩ := hd x hx
    exact digitChar_isDigit e helt
  unfold jsParseFloatChars
  rw [List.dropWhile_cons]
  norm_num [show isJsSpace '-' = false from rfl]
  rw [show parseSign ('-' :: digitChar d :: t) = (-1, digitChar d :: t) by
    simp [parseSign]]
  rw [takeDigits_all _ hdig]
  simp [parseExp, digitsVal]

theorem jsParseFloat_intToString (v : ℤ) :
    jsParseFloat (intToString v) = some (v : ℚ) := by
  unfold jsParseFloat intToString intToChars
  by_cases hv : v < 0
  · rw [if_pos hv]
    show jsParseFloatChars ('-' :: natToChars v.natAbs) = some (v : ℚ)
    rw [jsParseFloatChars_neg_digits _ (natToChars_ne_nil _) (natToChars_mem _)]
    rw [digitsVal_natToChars]
    simp only [Option.some.injEq]
    have h1 : (v.natAbs : ℤ) = -v := by omega
    have h2 : ((v.natAbs : ℕ) : ℚ) = ((-v : ℤ) : ℚ) := by
      rw [← h1]; exact (Int.cast_natCast v.natAbs).symm
    rw [h2]
    push_cast
    ring
  · rw [if_neg hv]
    show jsParseFloatChars (natToChars v.natAbs) = some (v : ℚ)
    rw [jsParseFloatChars_digits _ (natToChars_ne_nil _) (natToChars_mem _)]
    rw [digitsVal_natToChars]
    simp only [Option.some.injEq]
    have h1 : (v.natAbs : ℤ) = v := by omega
    have h2 : ((v.natAbs : ℕ) : ℚ) = ((v : ℤ) : ℚ) := by
      rw [← h1]; exact (Int.cast_natCast v.natAbs).symm
    rw [h2]

/-! ## Grouping and stripping lemmas -/

theorem group3Rev_cons4 (a b c d : Char) (rest : List Char) :
    group3Rev (a :: b :: c :: d :: rest) =
      a :: b :: c :: ',' :: group3Rev (d :: rest) := rfl

theorem filter_group3Rev_aux (p : Char → Bool) (hp : p ',' = false) :
    ∀ N l, l.length ≤ N → (∀ c ∈ l, p c = true) →
      (group3Rev l).filter p = l := by
  intro N
  induction N with
  | zero =>
    intro l hl _
    have : l = [] := List.length_eq_zero.mp (Nat.le_zero.mp hl)
    subst this
    rfl
  | succ N ih =>
    intro l hl hall
    match l with
    | [] => rfl
    | [a] => simp [group3Rev, List.filter, hall a (by simp)]
    | [a, b] =>
      simp [group3Rev, List.filter, hall a (by simp), hall b (by simp)]
    | [a, b, c] =>
      simp [group3Rev, List.filter, hall a (by simp), hall b (by simp),
        hall c (by simp)]
    | a :: b :: c :: d :: rest =>
      rw [group3Rev_cons4]
      have htail : ∀ x ∈ d :: rest, p x = true := fun x hx =>
        hall x (List.mem_cons_of_mem a (List.mem_cons_of_mem b
          (List.mem_cons_of_mem c hx)))
      have hlen : (d :: rest).length ≤ N := by
        simp only [List.length_cons] at hl ⊢
        omega
      simp only [List.filter_cons, hall a (by simp), hall b (by simp),
        hall c (by simp), hp, if_true, Bool.false_eq_true, if_false]
      rw [ih (d :: rest) hlen htail]

theorem filter_group3Rev (p : Char → Bool) (hp : p ',' = false)
    (l : List Char) (hall : ∀ c ∈ l, p c = true) :
    (group3Rev l).filter p = l :=
  filter_group3Rev_aux p hp l.length l le_rfl hall

theorem toLocaleStringChars_int (v : ℤ) :
    toLocaleStringChars (v : ℚ) =
      (if v < 0 then ['-'] else []) ++
        (group3Rev ((natDigitsRev v.natAbs).map digitChar)).reverse := by
  have hfloor : ∀ w : ℤ, ⌊((w : ℚ)) * 1000 + 1 / 2⌋ = w * 1000 := by
    intro w
    have : ((w : ℚ)) * 1000 + 1 / 2 = ((w * 1000 : ℤ) : ℚ) + 1 / 2 := by push_cast; ring
    rw [this, Int.floor_int_add]
    norm_num
  have hn : (if (v : ℚ) < 0 then -⌊-(v : ℚ) * 1000 + 1 / 2⌋ else ⌊(v : ℚ) * 1000 + 1 / 2⌋)
      = v * 1000 := by
    by_cases hv : v < 0
    · rw [if_pos (by exact_mod_cast hv)]
      have : -(v : ℚ) * 1000 + 1 / 2 = ((-v : ℤ) : ℚ) * 1000 + 1 / 2 := by push_cast; ring
      rw [this, hfloor (-v)]
      ring
    · rw [if_neg (by exact_mod_cast hv)]
      exact hfloor v
  have habs : (v * 1000).natAbs = v.natAbs * 1000 := by
    rw [Int.natAbs_mul]
    rfl
  have hsign : (v * 1000 < 0) ↔ (v < 0) := by omega
  simp only [toLocaleStringChars]
  rw [hn, habs]
  have hdiv : v.natAbs * 1000 / 1000 = v.natAbs := by omega
  have hmod : v.natAbs * 1000 % 1000 = 0 := by omega
  rw [hdiv]
  simp [hmod, hsign]

/-! ## Classification and display-string lemmas -/

theorem string_data_append (s t : String) : (s ++ t).data = s.data ++ t.data := rfl

theorem string_mk_data (l : List Char) : (String.mk l).data = l := rfl

theorem classify_percentage_iff (col : String) :
    classify col = .Percentage ↔ col ∈ percentageFields := by
  unfold classify
  split_ifs <;> simp_all

theorem classify_currency_iff (col : String) :
    classify col = .Currency ↔ col ∉ percentageFields ∧ col ∈ currencyFields := by
  unfold classify
  split_ifs <;> simp_all

theorem classify_count_iff (col : String) :
    classify col = .Count ↔
      col ∉ percentageFields ∧ col ∉ currencyFields ∧ col ∈ numberFields := by
  unfold classify
  split_ifs <;> simp_all

theorem classify_plain_iff (col : String) :
    classify col = .Plain ↔
      col ∉ percentageFields ∧ col ∉ currencyFields ∧ col ∉ numberFields := by
  unfold classify
  split_ifs <;> simp_all

theorem intToString_ne_empty (v : ℤ) : intToString v ≠ "" := by
  unfold intToString
  intro h
  have hdata : intToChars v = [] := congrArg String.data h
  unfold intToChars at hdata
  rcases List.append_eq_nil.mp hdata with ⟨_, h2⟩
  exact natToChars_ne_nil v.natAbs h2

theorem isFalsy_intToString (v : ℤ) : isFalsy (.str (intToString v)) = false := by
  simp [isFalsy, intToString_ne_empty v]

theorem formatValue_int_currency (v : ℤ) (col : String)
    (hc : classify col = .Currency) :
    formatValue (.str (intToString v)) col = .str ("$" ++ toLocaleString (v : ℚ)) := by
  rcases (classify_currency_iff col).mp hc with ⟨hnp, hcy⟩
  unfold formatValue
  rw [isFalsy_intToString]
  simp only [Bool.false_eq_true, if_false, parseFloatValue, jsParseFloat_intToString]
  rw [if_neg hnp, if_pos hcy]
  exact ite_self _

theorem formatValue_int_count (v : ℤ) (col : String)
    (hc : classify col = .Count) :
    formatValue (.str (intToString v)) col = .str (toLocaleString (v : ℚ)) := by
  rcases (classify_count_iff col).mp hc with ⟨hnp, hnc, hcnt⟩
  unfold formatValue
  rw [isFalsy_intToString]
  simp only [Bool.false_eq_true, if_false, parseFloatValue, jsParseFloat_intToString]
  rw [if_neg hnp, if_neg hnc, if_pos hcnt]

theorem filter_intGrouped (p : Char → Bool) (hpc : p ',' = false)
    (hpm : p '-' = true) (hdig : ∀ d, d < 10 → p (digitChar d) = true) (v : ℤ) :
    (toLocaleStringChars (v : ℚ)).filter p = intToChars v := by
  rw [toLocaleStringChars_int]
  rw [List.filter_append]
  have hgrp : ((group3Rev ((natDigitsRev v.natAbs).map digitChar)).reverse).filter p
      = (((natDigitsRev v.natAbs).map digitChar)).reverse := by
    rw [List.filter_reverse]
    rw [filter_group3Rev p hpc]
    intro c hc
    rcases List.mem_map.mp hc with ⟨d, hd, rfl⟩
    exact hdig d (natDigitsRev_lt v.natAbs d hd)
  rw [hgrp]
  unfold intToChars natToChars
  by_cases hv : v < 0 <;> simp [hv, List.filter, hpm]

theorem group3Rev_ne_nil (l : List Char) (h : l ≠ []) : group3Rev l ≠ [] := by
  rcases l with _ | ⟨a, _ | ⟨b, _ | ⟨c, _ | ⟨d, rest⟩⟩⟩⟩
  · exact absurd rfl h
  · simp [group3Rev]
  · simp [group3Rev]
  · simp [group3Rev]
  · rw [group3Rev_cons4]; simp

theorem toLocaleString_int_ne_empty (v : ℤ) : toLocaleString (v : ℚ) ≠ "" := by
  unfold toLocaleString
  intro h
  have hd : toLocaleStringChars (v : ℚ) = [] := congrArg String.data h
  rw [toLocaleStringChars_int] at hd
  rcases List.append_eq_nil.mp hd with ⟨_, h2⟩
  have h3 : group3Rev ((natDigitsRev v.natAbs).map digitChar) = [] :=
    List.reverse_eq_nil_iff.mp h2
  refine group3Rev_ne_nil _ ?_ h3
  simp [natDigitsRev_ne_nil]

theorem dollar_append_ne_empty (s : String) : ("$" ++ s) ≠ "" := by
  intro h
  have hd := congrArg String.data h
  rw [string_data_append] at hd
  simp at hd

theorem stripDollarComma_currency_display (v : ℤ) :
    stripDollarComma ("$" ++ toLocaleString (v : ℚ)) = intToString v := by
  unfold stripDollarComma toLocaleString intToString
  rw [string_data_append]
  have hdata : ("$" : String).data ++ (String.mk (toLocaleStringChars (v : ℚ))).data
      = '$' :: toLocaleStringChars (v : ℚ) := rfl
  rw [hdata]
  have hstep :
      List.filter (fun c => decide (¬(c = '$' ∨ c = ','))) ('$' :: toLocaleStringChars (v : ℚ))
        = List.filter (fun c => decide (¬(c = '$' ∨ c = ','))) (toLocaleStringChars (v : ℚ)) := by
    simp
  rw [hstep]
  have hdig : ∀ d, d < 10 → (fun c => decide (¬(c = '$' ∨ c = ','))) (digitChar d) = true := by
    intro d hd
    simp [digitChar_ne_dollar d hd, digitChar_ne_comma d hd]
  rw [filter_intGrouped _ (by decide) (by decide) hdig v]

theorem stripComma_count_display (v : ℤ) :
    stripComma (toLocaleString (v : ℚ)) = intToString v := by
  unfold stripComma toLocaleString intToString
  rw [string_mk_data]
  have hdig : ∀ d, d < 10 → (fun c => decide (¬(c = ','))) (digitChar d) = true := by
    intro d hd
    simp [digitChar_ne_comma d hd]
  rw [filter_intGrouped _ (by decide) (by decide) hdig v]

theorem getRawValue_str_currency (v : ℤ) (col : String)
    (hc : classify col = .Currency) :
    getRawValue (.str ("$" ++ toLocaleString (v : ℚ))) col col = .num (v : ℚ) := by
  rcases (classify_currency_iff col).mp hc with ⟨hnp, hcy⟩
  have hfal : isFalsy (.str ("$" ++ toLocaleString (v : ℚ))) = false := by
    simp [isFalsy, dollar_append_ne_empty]
  unfold getRawValue
  rw [hfal]
  simp only [Bool.false_eq_true, if_false, jsToString]
  by_cases hm : col = "Median Weekly Rent"
  · rw [if_pos hm, stripDollarComma_currency_display, jsParseFloat_intToString]
  · rw [if_neg hm, if_neg hnp, if_pos hcy, stripDollarComma_currency_display,
      jsParseFloat_intToString]

theorem getRawValue_str_count (v : ℤ) (col : String)
    (hc : classify col = .Count) :
    getRawValue (.str (toLocaleString (v : ℚ))) col col = .num (v : ℚ) := by
  rcases (classify_count_iff col).mp hc with ⟨hnp, hnc, hcnt⟩
  have hmwr : ("Median Weekly Rent" : String) ∈ currencyFields := by decide
  have hm : col ≠ "Median Weekly Rent" := fun h => hnc (h ▸ hmwr)
  have hfal : isFalsy (.str (toLocaleString (v : ℚ))) = false := by
    simp [isFalsy, toLocaleString_int_ne_empty]
  unfold getRawValue
  rw [hfal]
  simp only [Bool.false_eq_true, if_false, jsToString]
  rw [if_neg hm, if_neg hnp, if_neg hnc, if_pos hcnt, stripComma_count_display,
    jsParseFloat_intToString]

/-! ## Claim theorems -/

/-- Claim C1: for every raw value string that parses as a decimal number,
formatting it under a Percentage-classified column yields the parsed number
times 100, fixed to 2 decimal places, with "%" appended. -/
theorem C1_percentage_format (v : String) (q : ℚ) (col : String)
    (hv : jsParseFloat v = some q) (hcol : classify col = FieldKind.Percentage) :
    formatValue (.str v) col = .str (toFixed2 (100 * q) ++ "%") := by
  have hne : v ≠ "" := by
    intro h
    rw [h] at hv
    have h0 : jsParseFloat "" = none := rfl
    rw [h0] at hv
    exact Option.noConfusion hv
  have hfal : isFalsy (.str v) = false := by simp [isFalsy, hne]
  have hmem := (classify_percentage_iff col).mp hcol
  unfold formatValue
  rw [hfal]
  simp only [Bool.false_eq_true, if_false, parseFloatValue, hv]
  rw [if_pos hmem, mul_comm]

/-- Witness for C1: formatting "0.25" in the Percentage column
"Rental Yield" yields "25.00%". -/
theorem C1_witness :
    jsParseFloat "0.25" = some (1 / 4 : ℚ) ∧
    formatValue (.str "0.25") "Rental Yield" = .str "25.00%" := by
  have hp : jsParseFloat "0.25" = some (1 / 4 : ℚ) := by
    simp +decide [jsParseFloat, jsParseFloatChars, parseSign, takeDigits, parseExp,
      digitsVal, isJsSpace, List.dropWhile, List.foldl]
    norm_num
  refine ⟨hp, ?_⟩
  rw [C1_percentage_format "0.25" (1 / 4) "Rental Yield" hp (by decide)]
  have ha : (100 * (1 / 4 : ℚ)) = 25 := by norm_num
  rw [ha]
  have hneg : ¬((25 : ℚ) < 0) := by norm_num
  simp +decide [toFixed2, toFixed2Chars, hneg]
  rw [show (⌊(25 : ℚ) * 100 + 2⁻¹⌋ : ℤ) = 2500 from by norm_num [Int.floor_eq_iff]]
  decide

/-- Claim C2: formatting an integer under a Currency- or Count-classified
column and un-formatting the display string recovers the integer exactly. -/
theorem C2_integer_round_trip (v : ℤ) (col : String)
    (h : classify col = FieldKind.Currency ∨ classify col = FieldKind.Count) :
    getRawValue (formatValue (.str (intToString v)) col) col col = .num (v : ℚ) := by
  rcases h with hc | hc
  · rw [formatValue_int_currency v col hc, getRawValue_str_currency v col hc]
  · rw [formatValue_int_count v col hc, getRawValue_str_count v col hc]

/-- Witness for C2: 675000 in the Currency column "Suburb $ Median"
displays as "$675,000" and un-formats back to 675000. -/
theorem C2_witness :
    formatValue (.str (intToString 675000)) "Suburb $ Median" = .str "$675,000" ∧
    getRawValue (formatValue (.str (intToString 675000)) "Suburb $ Median")
      "Suburb $ Median" "Suburb $ Median" = .num (675000 : ℚ) := by
  constructor
  · rw [formatValue_int_currency 675000 "Suburb $ Median" (by decide)]
    simp only [toLocaleString]
    rw [toLocaleStringChars_int 675000]
    decide
  · exact C2_integer_round_trip 675000 "Suburb $ Median" (Or.inl (by decide))

/-- Claim C4: the weekly-rent calculator reads the price and yield columns
as numbers with missing/unparseable treated as 0, returns the rounded
weekly rent if both are strictly positive and 0 otherwise. -/
theorem C4_weekly_rent (row : Obj) (p y : ℚ)
    (hp : p = ((objGet row "Suburb $ Median").bind parseFloatValue).getD 0)
    (hy : y = ((objGet row "Rental Yield").bind parseFloatValue).getD 0) :
    calculateMedianWeeklyRent row =
      if 0 < p ∧ 0 < y then jsMathRound (p * y / 52) else 0 := by
  subst hp hy
  rfl

/-- Witness for C4: price 650000 with yield 0.04 gives weekly rent 500. -/
theorem C4_witness :
    calculateMedianWeeklyRent
        [("Suburb $ Median", Value.str "650000"), ("Rental Yield", Value.str "0.04")] =
      (if 0 < (650000 : ℚ) ∧ 0 < (1 / 25 : ℚ) then
        jsMathRound (650000 * (1 / 25) / 52) else 0) ∧
    calculateMedianWeeklyRent
        [("Suburb $ Median", Value.str "650000"), ("Rental Yield", Value.str "0.04")] = 500 := by
  have hp : (650000 : ℚ) =
      ((objGet [("Suburb $ Median", Value.str "650000"),
        ("Rental Yield", Value.str "0.04")] "Suburb $ Median").bind parseFloatValue).getD 0 := by
    simp +decide [objGet, parseFloatValue, jsParseFloat, jsParseFloatChars, parseSign,
      takeDigits, parseExp, digitsVal, isJsSpace, List.dropWhile, List.foldl]
  have hy : (1 / 25 : ℚ) =
      ((objGet [("Suburb $ Median", Value.str "650000"),
        ("Rental Yield", Value.str "0.04")] "Rental Yield").bind parseFloatValue).getD 0 := by
    simp +decide [objGet, parseFloatValue, jsParseFloat, jsParseFloatChars, parseSign,
      takeDigits, parseExp, digitsVal, isJsSpace, List.dropWhile, List.foldl]
    norm_num
  have hmain := C4_weekly_rent
    [("Suburb $ Median", Value.str "650000"), ("Rental Yield", Value.str "0.04")]
    650000 (1 / 25) hp hy
  refine ⟨hmain, ?_⟩
  rw [hmain, if_pos ⟨by norm_num, by norm_num⟩]
  rw [show (650000 * (1 / 25 : ℚ) / 52) = 500 from by norm_num]
  rw [show jsMathRound (500 : ℚ) = 500 from by norm_num [jsMathRound, Int.floor_eq_iff]]

/-- Claim C10: a falsy raw value (the empty string, or the number 0
produced by the weekly-rent calculation) formats to the empty string and
un-formats to the empty string, for every column. -/
theorem C10_falsy_empty (v : Value) (field orig : String)
    (h : v = .str "" ∨ v = .num 0) :
    formatValue v field = .str "" ∧ getRawValue v field orig = .str "" := by
  have hfal : isFalsy v = true := by rcases h with rfl | rfl <;> simp [isFalsy]
  constructor
  · unfold formatValue
    rw [hfal]
    simp
  · unfold getRawValue
    rw [hfal]
    simp

/-- Witness for C10: a computed weekly rent of 0 is displayed and exported
as an empty cell in the (Currency-classified) derived column. -/
theorem C10_witness :
    formatValue (.num 0) "Median Weekly Rent" = .str "" ∧
    getRawValue (.num 0) "Median Weekly Rent" "Median Weekly Rent" = .str "" :=
  C10_falsy_empty (.num 0) "Median Weekly Rent" "Median Weekly Rent" (Or.inr rfl)

/-! ## Sorting lemmas -/

theorem unitsLe_total (x : List ℕ) :
    ∀ y, unitsLe x y = false → unitsLe y x = true := by
  induction x with
  | nil => intro y h; simp [unitsLe] at h
  | cons a as ih =>
    intro y h
    cases y with
    | nil => simp [unitsLe]
    | cons b bs =>
      simp only [unitsLe] at h ⊢
      rcases Nat.lt_trichotomy a b with hab | hab | hab
      · rw [if_pos hab] at h
        exact absurd h (by simp)
      · subst hab
        rw [if_neg (lt_irrefl a), if_neg (lt_irrefl a)] at h ⊢
        exact ih bs h
      · rw [if_pos hab]

theorem unitsLe_trans (x : List ℕ) :
    ∀ y z, unitsLe x y = true → unitsLe y z = true → unitsLe x z = true := by
  induction x with
  | nil => intro y z _ _; simp [unitsLe]
  | cons a as ih =>
    intro y z hxy hyz
    cases y with
    | nil => simp [unitsLe] at hxy
    | cons b bs =>
      cases z with
      | nil => simp [unitsLe] at hyz
      | cons c cs =>
        simp only [unitsLe] at hxy hyz ⊢
        rcases Nat.lt_trichotomy a b with hab | hab | hab
        · rcases Nat.lt_trichotomy b c with hbc | hbc | hbc
          · rw [if_pos (by omega)]
          · subst hbc; rw [if_pos hab]
          · rw [if_pos hbc, if_neg (by omega)] at hyz
            exact absurd hyz (by simp)
        · subst hab
          rcases Nat.lt_trichotomy a c with hac | hac | hac
          · rw [if_pos hac]
          · subst hac
            rw [if_neg (lt_irrefl a), if_neg (lt_irrefl a)] at hxy hyz ⊢
            exact ih bs cs hxy hyz
          · rw [if_pos hac, if_neg (by omega)] at hyz
            exact absurd hyz (by simp)
        · rw [if_pos hab, if_neg (by omega)] at hxy
          exact absurd hxy (by simp)

theorem jsLe_total (s t : String) (h : jsLe s t = false) : jsLe t s = true :=
  unitsLe_total _ _ h

theorem jsLe_trans (s t u : String) (hst : jsLe s t = true) (htu : jsLe t u = true) :
    jsLe s u = true :=
  unitsLe_trans _ _ _ hst htu

theorem mem_insertSorted (a x : String) :
    ∀ l, x ∈ insertSorted a l ↔ x = a ∨ x ∈ l := by
  intro l
  induction l with
  | nil => simp [insertSorted]
  | cons b t ih =>
    simp only [insertSorted]
    split <;> simp only [List.mem_cons, ih] <;> tauto

theorem perm_insertSorted (a : String) :
    ∀ l, (insertSorted a l).Perm (a :: l) := by
  intro l
  induction l with
  | nil => simp [insertSorted]
  | cons b t ih =>
    simp only [insertSorted]
    split
    · exact (ih.cons b).trans (List.Perm.swap a b t)
    · exact List.Perm.refl _

theorem perm_jsSortStrings (l : List String) : (jsSortStrings l).Perm l := by
  induction l with
  | nil => simp [jsSortStrings]
  | cons a t ih =>
    simp only [jsSortStrings]
    exact (perm_insertSorted a (jsSortStrings t)).trans (ih.cons a)

theorem pairwise_insertSorted (a : String) (l : List String)
    (h : l.Pairwise (fun x y => jsLe x y = true)) :
    (insertSorted a l).Pairwise (fun x y => jsLe x y = true) := by
  induction l with
  | nil => simp [insertSorted]
  | cons b t ih =>
    rcases List.pairwise_cons.mp h with ⟨hb, ht⟩
    simp only [insertSorted]
    split
    · next hba =>
      refine List.pairwise_cons.mpr ⟨?_, ih ht⟩
      intro x hx
      rcases (mem_insertSorted a x t).mp hx with rfl | hx
      · exact hba
      · exact hb x hx
    · next hba =>
      have hab : jsLe a b = true := jsLe_total b a (by
        cases hcase : jsLe b a
        · rfl
        · exact absurd hcase hba)
      refine List.pairwise_cons.mpr ⟨?_, h⟩
      intro x hx
      rcases List.mem_cons.mp hx with rfl | hx
      · exact hab
      · exact jsLe_trans a b x hab (hb x hx)

theorem pairwise_jsSortStrings (l : List String) :
    (jsSortStrings l).Pairwise (fun x y => jsLe x y = true) := by
  induction l with
  | nil => simp [jsSortStrings]
  | cons a t ih =>
    simp only [jsSortStrings]
    exact pairwise_insertSorted a (jsSortStrings t) ih

/-- Claim C5: header ordering equals the priority columns present in the
input (in the fixed 11-element priority order) followed by the remaining
headers sorted ascending by the default string order; absent priority
columns are simply omitted. -/
theorem C5_header_order (H : List String) :
    sortHeaders H =
      priorityColumns.filter (fun c => decide (c ∈ H)) ++
        jsSortStrings (H.filter (fun c => decide (c ∉ priorityColumns))) ∧
    priorityColumns.length = 11 ∧
    (jsSortStrings (H.filter (fun c => decide (c ∉ priorityColumns)))).Pairwise
      (fun a b => jsLe a b = true) ∧
    (jsSortStrings (H.filter (fun c => decide (c ∉ priorityColumns)))).Perm
      (H.filter (fun c => decide (c ∉ priorityColumns))) := by
  refine ⟨?_, rfl, pairwise_jsSortStrings _, perm_jsSortStrings _⟩
  simp only [sortHeaders]
  congr 1
  apply List.filter_congr
  intro col hcol
  simp [List.mem_filter, hcol]

theorem sortHeaders_mwr_nodup (csvHeaders : List String) (h : csvHeaders.Nodup) :
    "Median Weekly Rent" ∈ sortHeaders (csvHeaders ++ ["Median Weekly Rent"]) ∧
    (sortHeaders (csvHeaders ++ ["Median Weekly Rent"])).Nodup := by
  have hPnodup : priorityColumns.Nodup := by decide
  have hMWRP : ("Median Weekly Rent" : String) ∈ priorityColumns := by decide
  have hothers :
      (csvHeaders ++ ["Median Weekly Rent"]).filter
          (fun hh => decide (hh ∉ priorityColumns)) =
        csvHeaders.filter (fun hh => decide (hh ∉ priorityColumns)) := by
    rw [List.filter_append]
    simp [hMWRP]
  simp only [sortHeaders]
  rw [hothers]
  constructor
  · apply List.mem_append_left
    apply List.mem_filter.mpr
    refine ⟨hMWRP, ?_⟩
    simp [List.mem_filter, hMWRP]
  · apply List.Nodup.append
    · exact hPnodup.filter _
    · exact ((perm_jsSortStrings _).nodup_iff).mpr (h.filter _)
    · intro x hx1 hx2
      have hxP : x ∈ priorityColumns := List.mem_of_mem_filter hx1
      have hx3 : x ∈ csvHeaders.filter (fun hh => decide (hh ∉ priorityColumns)) :=
        (perm_jsSortStrings _).mem_iff.mp hx2
      have := List.of_mem_filter hx3
      simp at this
      exact this hxP

/-- Claim C8: after an upload completes, the produced header sequence
contains the derived column "Median Weekly Rent" and has no duplicates,
even when the source file itself already has that column. -/
theorem C8_headers (s : AppState) (f : JsFile) (data : List Obj)
    (h : ((data.head?.getD []).map Prod.fst).Nodup) :
    "Median Weekly Rent" ∈ ((handleFileUpload s (some f) (.complete data)).1).headers ∧
    ((handleFileUpload s (some f) (.complete data)).1).headers.Nodup := by
  have hred : ((handleFileUpload s (some f) (.complete data)).1).headers
      = sortHeaders ((data.head?.getD []).map Prod.fst ++ ["Median Weekly Rent"]) := rfl
  rw [hred]
  exact sortHeaders_mwr_nodup _ h

/-- Witness for C8: uploading a file whose first row already has a
"Median Weekly Rent" column still yields duplicate-free headers. -/
theorem C8_witness :
    "Median Weekly Rent" ∈ ((handleFileUpload resetState (some ⟨"a.csv"⟩)
      (.complete [[("Median Weekly Rent", Value.str "100"),
        ("Suburb", Value.str "A")]])).1).headers ∧
    ((handleFileUpload resetState (some ⟨"a.csv"⟩)
      (.complete [[("Median Weekly Rent", Value.str "100"),
        ("Suburb", Value.str "A")]])).1).headers.Nodup :=
  C8_headers resetState ⟨"a.csv"⟩
    [[("Median Weekly Rent", Value.str "100"), ("Suburb", Value.str "A")]] (by decide)

/-! ## Projection lemmas -/

theorem objSet_of_not_mem {α : Type} (o : List (String × α)) (k : String) (v : α)
    (h : ∀ p ∈ o, p.1 ≠ k) : objSet o k v = o ++ [(k, v)] := by
  unfold objSet
  rw [if_neg]
  intro hc
  rcases List.any_eq_true.mp hc with ⟨p, hp, hpk⟩
  exact h p hp (of_decide_eq_true hpk)

theorem filterMap_names_sublist (row : Obj) (renames : List (String × String))
    (cols : List String) :
    (cols.filterMap (fun c => (objGet row c).map
        (fun _ => renameOf renames c))).Sublist (cols.map (renameOf renames)) := by
  induction cols with
  | nil => simp
  | cons c cs ih =>
    cases h : objGet row c with
    | none =>
      simp only [List.filterMap_cons, h, Option.map_none', List.map_cons]
      exact ih.cons _
    | some v =>
      simp only [List.filterMap_cons, h, Option.map_some', List.map_cons]
      exact ih.cons₂ _

theorem buildRow_eq (row : Obj) (renames : List (String × String)) :
    ∀ (cols : List String) (acc : Obj),
      (cols.filterMap (fun c => (objGet row c).map
        (fun _ => renameOf renames c))).Nodup →
      (∀ p ∈ acc, p.1 ∉ cols.filterMap (fun c => (objGet row c).map
        (fun _ => renameOf renames c))) →
      List.foldl (fun filteredRow col =>
          match objGet row col with
          | some v => objSet filteredRow (renameOf renames col) (formatValue v col)
          | none => filteredRow) acc cols
        = acc ++ cols.filterMap (fun c => (objGet row c).map
            (fun v => (renameOf renames c, formatValue v c))) := by
  intro cols
  induction cols with
  | nil =>
    intro acc _ _
    simp
  | cons c cs ih =>
    intro acc hnd hdis
    cases hval : objGet row c with
    | none =>
      simp only [List.foldl_cons, hval]
      simp only [List.filterMap_cons, hval, Option.map_none'] at hnd hdis ⊢
      exact ih acc hnd hdis
    | some v =>
      simp only [List.foldl_cons, hval]
      simp only [List.filterMap_cons, hval, Option.map_some'] at hnd hdis ⊢
      rcases List.nodup_cons.mp hnd with ⟨hrnotin, hnd2⟩
      have hstep : objSet acc (renameOf renames c) (formatValue v c)
          = acc ++ [(renameOf renames c, formatValue v c)] := by
        apply objSet_of_not_mem
        intro p hp
        have := hdis p hp
        simp only [List.mem_cons, not_or] at this
        exact this.1
      rw [hstep]
      rw [ih (acc ++ [(renameOf renames c, formatValue v c)]) hnd2 ?_]
      · rw [List.append_assoc]
        rfl
      · intro p hp
        rcases List.mem_append.mp hp with hp1 | hp2
        · have := hdis p hp1
          simp only [List.mem_cons, not_or] at this
          exact this.2
        · rcases List.mem_singleton.mp hp2 with rfl
          exact hrnotin

/-- Claim C3: the projection yields one output row per input row in order;
each output row lists, for each selected column present in the raw row (in
selected order), the formatted value under the renamed name, silently
omitting absent columns — provided the renamed names of the selected
columns are pairwise distinct (the spec's RenameMap invariant). -/
theorem C3_projection (data : List Obj) (columns : List String)
    (renames : List (String × String))
    (hinj : (columns.map (renameOf renames)).Nodup) :
    (generateTableData data columns renames).length = data.length ∧
    generateTableData data columns renames =
      data.map (fun row => columns.filterMap (fun c =>
        (objGet row c).map (fun v => (renameOf renames c, formatValue v c)))) := by
  constructor
  · simp [generateTableData]
  · unfold generateTableData
    apply List.map_congr_left
    intro row _
    have hnd : (columns.filterMap (fun c => (objGet row c).map
        (fun _ => renameOf renames c))).Nodup :=
      hinj.sublist (filterMap_names_sublist row renames columns)
    have := buildRow_eq row renames columns [] hnd (by simp)
    simpa using this

/-- Witness for C3: projecting one row over selected columns
["State", "Suburb"] with "State" renamed to "Region". -/
theorem C3_witness :
    (generateTableData [[("Suburb", Value.str "Kew"), ("State", Value.str "VIC")]]
        ["State", "Suburb"] [("State", "Region")]).length =
      ([[("Suburb", Value.str "Kew"), ("State", Value.str "VIC")]] : List Obj).length ∧
    generateTableData [[("Suburb", Value.str "Kew"), ("State", Value.str "VIC")]]
        ["State", "Suburb"] [("State", "Region")] =
      ([[("Suburb", Value.str "Kew"), ("State", Value.str "VIC")]] : List Obj).map
        (fun row => (["State", "Suburb"] : List String).filterMap (fun c =>
          (objGet row c).map (fun v =>
            (renameOf [("State", "Region")] c, formatValue v c)))) :=
  C3_projection [[("Suburb", Value.str "Kew"), ("State", Value.str "VIC")]]
    ["State", "Suburb"] [("State", "Region")] (by decide)

/-- Claim C9: when two distinct selected columns are renamed to the same
display name, the later column's formatted value silently overwrites the
earlier one's entry in each projected row. -/
theorem C9_rename_collision (row : Obj) (renames : List (String × String))
    (a b r : String) (_hab : a ≠ b)
    (hra : renameOf renames a = r) (hrb : renameOf renames b = r)
    (va vb : Value) (ha : objGet row a = some va) (hb : objGet row b = some vb) :
    generateTableData [row] [a, b] renames = [[(r, formatValue vb b)]] := by
  unfold generateTableData
  simp only [List.map_cons, List.map_nil, List.foldl_cons, List.foldl_nil, ha, hb,
    hra, hrb]
  have h1 : objSet ([] : Obj) r (formatValue va a) = [(r, formatValue va a)] := by
    apply objSet_of_not_mem
    simp
  rw [h1]
  have h2 : objSet [(r, formatValue va a)] r (formatValue vb b)
      = [(r, formatValue vb b)] := by
    unfold objSet
    rw [if_pos]
    · simp
    · simp
  rw [h2]

/-- Witness for C9: renaming both "Suburb" and "State" to "X" leaves a
single "X" entry holding the later column's (formatted) value. -/
theorem C9_witness :
    generateTableData [[("Suburb", Value.str "A"), ("State", Value.str "B")]]
        ["Suburb", "State"] [("Suburb", "X"), ("State", "X")] =
      [[("X", formatValue (Value.str "B") "State")]] :=
  C9_rename_collision [("Suburb", Value.str "A"), ("State", Value.str "B")]
    [("Suburb", "X"), ("State", "X")] "Suburb" "State" "X" (by decide) (by decide)
    (by decide) (Value.str "A") (Value.str "B") (by decide) (by decide)

/-- Counterexample to C6 as stated: the empty display value in the
Percentage-classified column "Rental Yield" un-formats to the empty string,
not to a number. -/
theorem C6_counterexample :
    classify "Rental Yield" = FieldKind.Percentage ∧
    getRawValue (.str "") "Rental Yield" "Rental Yield" = .str "" ∧
    ¬∃ q : ℚ, getRawValue (.str "") "Rental Yield" "Rental Yield" = .num q := by
  have h2 : getRawValue (.str "") "Rental Yield" "Rental Yield" = .str "" := rfl
  refine ⟨by decide, h2, ?_⟩
  rintro ⟨q, hq⟩
  rw [h2] at hq
  exact Value.noConfusion hq

/-- The parse attempt `getRawValue` makes for a classified export column:
the same branch order and stripping as the source (the derived column and
currency columns strip '$' and commas, percentage columns strip the first
'%', count columns strip commas, anything else parses directly). -/
def exportParse (value : Value) (originalColumn : String) : Option ℚ :=
  if originalColumn = "Median Weekly Rent" then
    jsParseFloat (stripDollarComma (jsToString value))
  else if originalColumn ∈ percentageFields then
    jsParseFloat (stripPercent (jsToString value))
  else if originalColumn ∈ currencyFields then
    jsParseFloat (stripDollarComma (jsToString value))
  else if originalColumn ∈ numberFields then
    jsParseFloat (stripComma (jsToString value))
  else parseFloatValue value

/-- Claim C6 (amended): for classified (non-Plain) columns, un-formatting a
truthy display value always returns a number, and when the stripped display
value fails to parse that number is exactly 0 (never a throw); a falsy
display value returns the empty string. -/
theorem C6_unformat_total (value : Value) (fieldName col : String)
    (hcol : classify col ≠ FieldKind.Plain) :
    (isFalsy value = false → ∃ q : ℚ, getRawValue value fieldName col = .num q) ∧
    (isFalsy value = false → exportParse value col = none →
      getRawValue value fieldName col = .num 0) ∧
    (isFalsy value = true → getRawValue value fieldName col = .str "") := by
  refine ⟨?_, ?_, ?_⟩
  · intro hv
    unfold getRawValue
    rw [hv]
    simp only [Bool.false_eq_true, if_false]
    by_cases hm : col = "Median Weekly Rent"
    · rw [if_pos hm]
      cases h : jsParseFloat (stripDollarComma (jsToString value)) with
      | none => exact ⟨0, by simp [h]⟩
      | some q => exact ⟨q, by simp [h]⟩
    · rw [if_neg hm]
      by_cases h1 : col ∈ percentageFields
      · rw [if_pos h1]
        cases h : jsParseFloat (stripPercent (jsToString value)) with
        | none => exact ⟨0, by simp [h]⟩
        | some q => exact ⟨q / 100, by simp [h]⟩
      · rw [if_neg h1]
        by_cases h2 : col ∈ currencyFields
        · rw [if_pos h2]
          cases h : jsParseFloat (stripDollarComma (jsToString value)) with
          | none => exact ⟨0, by simp [h]⟩
          | some q => exact ⟨q, by simp [h]⟩
        · rw [if_neg h2]
          have h3 : col ∈ numberFields := by
            by_contra h3
            exact hcol ((classify_plain_iff col).mpr ⟨h1, h2, h3⟩)
          rw [if_pos h3]
          cases h : jsParseFloat (stripComma (jsToString value)) with
          | none => exact ⟨0, by simp [h]⟩
          | some q => exact ⟨q, by simp [h]⟩
  · intro hv hfail
    unfold getRawValue
    rw [hv]
    simp only [Bool.false_eq_true, if_false]
    unfold exportParse at hfail
    by_cases hm : col = "Median Weekly Rent"
    · rw [if_pos hm] at hfail ⊢
      simp [hfail]
    · rw [if_neg hm] at hfail ⊢
      by_cases h1 : col ∈ percentageFields
      · rw [if_pos h1] at hfail ⊢
        simp [hfail]
      · rw [if_neg h1] at hfail ⊢
        by_cases h2 : col ∈ currencyFields
        · rw [if_pos h2] at hfail ⊢
          simp [hfail]
        · rw [if_neg h2] at hfail ⊢
          have h3 : col ∈ numberFields := by
            by_contra h3
            exact hcol ((classify_plain_iff col).mpr ⟨h1, h2, h3⟩)
          rw [if_pos h3] at hfail ⊢
          simp [hfail]
  · intro hv
    unfold getRawValue
    rw [hv]
    simp

/-- Witness for C6: the unparseable truthy value "abc" in the classified
column "Rental Yield" fails to parse and un-formats to the number 0. -/
theorem C6_witness :
    exportParse (Value.str "abc") "Rental Yield" = none ∧
    getRawValue (.str "abc") "Rental Yield" "Rental Yield" = .num 0 := by
  have happ := C6_unformat_total (.str "abc") "Rental Yield" "Rental Yield" (by decide)
  have hfail : exportParse (Value.str "abc") "Rental Yield" = none := by decide
  exact ⟨hfail, happ.2.1 (by decide) hfail⟩

/-- Counterexample to C7 as stated: a parse failure does change the session
state, because the file name is stored before parsing starts. -/
theorem C7_counterexample :
    (handleFileUpload
        { csvData := none, headers := [], selectedColumns := [], columnRenames := [],
          tableData := [], fileName := "old.csv" }
        (some { name := "new.csv" }) (.error "malformed")).1 ≠
      { csvData := none, headers := [], selectedColumns := [], columnRenames := [],
        tableData := [], fileName := "old.csv" } := by
  decide

/-- Claim C7 (amended): on parse failure the error is reported to the
external error sink, no rows are produced, and the parsed rows, headers,
selected columns, rename map, and display table are left unchanged — but
the stored file name is updated to the new file's name before parsing. -/
theorem C7_parse_failure (s : AppState) (f : JsFile) (msg : String) :
    (handleFileUpload s (some f) (.error msg)).2 = ["Error parsing CSV: " ++ msg] ∧
    ((handleFileUpload s (some f) (.error msg)).1).csvData = s.csvData ∧
    ((handleFileUpload s (some f) (.error msg)).1).headers = s.headers ∧
    ((handleFileUpload s (some f) (.error msg)).1).selectedColumns = s.selectedColumns ∧
    ((handleFileUpload s (some f) (.error msg)).1).columnRenames = s.columnRenames ∧
    ((handleFileUpload s (some f) (.error msg)).1).tableData = s.tableData ∧
    ((handleFileUpload s (some f) (.error msg)).1).fileName = f.name :=
  ⟨rfl, rfl, rfl, rfl, rfl, rfl, rfl⟩

/-- Counterexample to C3 as stated for arbitrary rename maps: with a
colliding rename map the projected row does not hold an entry for each
present selected column — the collision collapses two entries into one. -/
theorem C3_counterexample :
    ¬ (generateTableData [[("Suburb", Value.str "A"), ("State", Value.str "B")]]
        ["Suburb", "State"] [("Suburb", "X"), ("State", "X")] =
      ([[("Suburb", Value.str "A"), ("State", Value.str "B")]] : List Obj).map
        (fun row => (["Suburb", "State"] : List String).filterMap (fun c =>
          (objGet row c).map (fun v =>
            (renameOf [("Suburb", "X"), ("State", "X")] c, formatValue v c))))) := by
  decide
